import Mathlib

/-!
Verification of the call-me phone-call server (`src/server/src/phone-call.ts`,
`src/server/src/providers/stt-openai-realtime.ts`) against its specification.

The TypeScript source is shallowly embedded: buffers become lists of bytes
(`Nat` below 256), PCM16 samples become `Int`, the process-global maps of
`CallManager` become function-valued maps, and the event-driven parts
(websocket close, timers) become explicit traces of events.  Each definition
is translated from the corresponding source function; definitions modelled
from the specification (because the repository does not ship the function)
say so in their doc comment.
-/

namespace CallMe

/-! ### Audio codec (phone-call.ts lines 734-769) -/

/-- Exponent-search loop of `pcmToMuLawSample`:
`for (let expMask = 0x4000; (pcm & expMask) === 0 && exponent > 0; exponent--) expMask >>= 1;`
The first argument is the biased sample, the second the current `exponent`,
the third the current `expMask`. -/
def expLoop : Nat → Nat → Nat → Nat
  | _, 0, _ => 0
  | p, e + 1, mask => if p &&& mask = 0 then expLoop p e (mask >>> 1) else e + 1

/-- Sign extraction `(pcm >> 8) & 0x80` of `pcmToMuLawSample`.  JS performs
the shift on the 32-bit two's-complement representation, embedded here as
the value modulo `2^32`. -/
def muLawSign (pcm : Int) : Nat :=
  ((pcm % (2 ^ 32)).toNat >>> 8) &&& 0x80

/-- Magnitude path of `pcmToMuLawSample`: negate when the sign bit is set,
clip to `CLIP = 32635`, add `BIAS = 0x84`. -/
def muLawBiased (pcm : Int) : Nat :=
  let sign := muLawSign pcm
  let p1 : Int := if sign ≠ 0 then -pcm else pcm
  let p2 : Int := if p1 > 32635 then 32635 else p1
  (p2 + 0x84).toNat

/-- `CallManager.pcmToMuLawSample` (phone-call.ts lines 756-769).  JS
`(~x) & 0xff` is the complement of the low byte, written here as
`0xff ^^^ (x &&& 0xff)`. -/
def pcmToMuLawSample (pcm : Int) : Nat :=
  let sign := muLawSign pcm
  let p := muLawBiased pcm
  let exponent := expLoop p 7 0x4000
  let mantissa := (p >>> (exponent + 3)) &&& 0x0f
  0xff ^^^ ((sign ||| (exponent <<< 4) ||| mantissa) &&& 0xff)

/-- Modelled from the spec: the repository ships no µ-law decoder; the spec
says "Decode µ-law by inverting the encoding", i.e. the standard G.711
µ-law expansion with `BIAS = 0x84`. -/
def muLawToPcm (mu : Nat) : Int :=
  let u := 0xff ^^^ (mu &&& 0xff)
  let exponent := (u >>> 4) &&& 0x07
  let mantissa := u &&& 0x0f
  let t : Int := ((mantissa <<< 3) + 0x84) <<< exponent
  if u &&& 0x80 ≠ 0 then 0x84 - t else t - 0x84

/-- Quantization step of the µ-law exponent band a sample is encoded into:
`2 ^ (exponent + 3)`, the width of one mantissa cell of that band. -/
def muLawStep (pcm : Int) : Int :=
  2 ^ (expLoop (muLawBiased pcm) 7 0x4000 + 3)

/-- Single-bit mask: `x &&& 128` picks out bit 7. -/
theorem and_128_eq (x : Nat) : x &&& 128 = if x / 128 % 2 = 1 then 128 else 0 := by
  have h := Nat.and_two_pow x 7
  norm_num [Nat.testBit_to_div_mod] at h
  rw [h]
  by_cases hx : x / 128 % 2 = 1 <;> simp [hx]

/-- Low-nibble mask: `x &&& 15` is `x % 16`. -/
theorem and_15_eq (x : Nat) : x &&& 15 = x % 16 := by
  have h := Nat.and_pow_two_sub_one_eq_mod x 4
  norm_num at h
  exact h

/-- The sign computation of `pcmToMuLawSample` is `0x80` exactly on negative
PCM16 samples. -/
theorem muLawSign_spec (s : Int) (h1 : -32768 ≤ s) (h2 : s ≤ 32767) :
    muLawSign s = if s < 0 then 128 else 0 := by
  unfold muLawSign
  rw [Nat.shiftRight_eq_div_pow, and_128_eq]
  by_cases hs : s < 0
  · have hmod : s % (2 ^ 32) = s + 2 ^ 32 := by omega
    rw [hmod, if_pos hs, if_pos]
    omega
  · have hmod : s % (2 ^ 32) = s := by omega
    rw [hmod, if_neg hs, if_neg]
    omega

/-- For unclipped samples the biased magnitude is `|s| + 132`. -/
theorem muLawBiased_spec (s : Int) (h1 : -32635 ≤ s) (h2 : s ≤ 32635) :
    muLawBiased s = s.natAbs + 132 := by
  have hsign := muLawSign_spec s (by omega) (by omega)
  unfold muLawBiased
  rw [hsign]
  by_cases hs : s < 0 <;> simp only [if_pos, if_neg, hs, ite_true, ite_false] <;>
    split_ifs <;> omega

/-- Range of the biased magnitude. -/
theorem muLawBiased_range (s : Int) (h1 : -32635 ≤ s) (h2 : s ≤ 32635) :
    132 ≤ muLawBiased s ∧ muLawBiased s ≤ 32767 := by
  rw [muLawBiased_spec s h1 h2]
  omega

/-- The exponent loop finds the band of the biased magnitude: starting from
`exponent = k` and `expMask = 2 ^ (k + 7)`, it returns the `e` with
`2 ^ (e + 7) ≤ p < 2 ^ (e + 8)`. -/
theorem expLoop_go : ∀ k p, 128 ≤ p → p < 2 ^ (k + 8) →
    2 ^ (expLoop p k (2 ^ (k + 7)) + 7) ≤ p ∧
    p < 2 ^ (expLoop p k (2 ^ (k + 7)) + 8) ∧ expLoop p k (2 ^ (k + 7)) ≤ k := by
  intro k
  induction k with
  | zero =>
    intro p h1 h2
    refine ⟨?_, ?_, ?_⟩ <;> simp [expLoop] <;> omega
  | succ k ih =>
    intro p h1 h2
    have hpos : 0 < 2 ^ (k + 8) := Nat.two_pow_pos _
    have hmask : (2 ^ (k + 1 + 7)) >>> 1 = 2 ^ (k + 7) := by
      rw [Nat.shiftRight_eq_div_pow]
      rw [show k + 1 + 7 = (k + 7) + 1 by omega, pow_succ]
      omega
    have hbit := Nat.and_two_pow p (k + 8)
    rw [expLoop]
    by_cases hz : p &&& 2 ^ (k + 1 + 7) = 0
    · rw [if_pos hz, hmask]
      rw [show k + 1 + 7 = k + 8 by omega] at hz
      have h0 : (p.testBit (k + 8)).toNat * 2 ^ (k + 8) = 0 := by rw [← hbit]; exact hz
      have htb : p / 2 ^ (k + 8) % 2 ≠ 1 := by
        rcases hb : p.testBit (k + 8) with _ | _
        · rw [Nat.testBit_to_div_mod] at hb
          simpa using hb
        · rw [hb] at h0
          simp only [Bool.toNat_true, one_mul] at h0
          exact absurd h0 (Nat.two_pow_pos _).ne'
      have hlt : p < 2 ^ (k + 8) := by
        have hdiv : p / 2 ^ (k + 8) < 2 := by
          rw [Nat.div_lt_iff_lt_mul hpos]
          calc p < 2 ^ (k + 1 + 8) := h2
          _ = 2 * 2 ^ (k + 8) := by
            rw [show k + 1 + 8 = (k + 8) + 1 by omega, pow_succ, Nat.mul_comm]
        by_contra hc
        push_neg at hc
        have h1' : 1 ≤ p / 2 ^ (k + 8) := (Nat.one_le_div_iff hpos).mpr hc
        have he : p / 2 ^ (k + 8) = 1 := by omega
        rw [he] at htb
        omega
      obtain ⟨a, b, c⟩ := ih p h1 hlt
      exact ⟨a, b, by omega⟩
    · rw [if_neg hz]
      refine ⟨?_, h2, le_refl _⟩
      rw [show k + 1 + 7 = k + 8 by omega] at hz ⊢
      rw [hbit] at hz
      have htb : p.testBit (k + 8) = true := by
        rcases hb : p.testBit (k + 8) with _ | _
        · rw [hb] at hz
          simp at hz
        · rfl
      rw [Nat.testBit_to_div_mod] at htb
      simp at htb
      by_contra hc
      push_neg at hc
      rw [Nat.div_eq_of_lt hc] at htb
      simp at htb

/-- Unfolding of `pcmToMuLawSample` in terms of the named pieces. -/
theorem pcmToMuLawSample_eq (s : Int) :
    pcmToMuLawSample s =
      0xff ^^^ ((muLawSign s |||
        (expLoop (muLawBiased s) 7 0x4000 <<< 4) |||
        ((muLawBiased s >>> (expLoop (muLawBiased s) 7 0x4000 + 3)) &&& 0x0f)) &&& 0xff) := rfl

/-- Unfolding of `muLawStep`. -/
theorem muLawStep_eq (s : Int) :
    muLawStep s = 2 ^ (expLoop (muLawBiased s) 7 0x4000 + 3) := rfl

/-- Decoding the byte assembled by the encoder recovers the reconstructed
magnitude `(mantissa * 8 + 132) * 2 ^ exponent - 132`, with the sign applied. -/
theorem muLawToPcm_byte : ∀ e, e < 8 → ∀ m, m < 16 →
    muLawToPcm (0xff ^^^ ((0 ||| (e <<< 4) ||| m) &&& 0xff))
      = ((m : Int) * 8 + 132) * 2 ^ e - 132 ∧
    muLawToPcm (0xff ^^^ ((128 ||| (e <<< 4) ||| m) &&& 0xff))
      = 132 - ((m : Int) * 8 + 132) * 2 ^ e := by decide

/-- Arithmetic core of the round-trip bound: within the band
`2 ^ (e+7) ≤ p < 2 ^ (e+8)` the reconstruction differs from `p` by at most
`2 ^ (e+3)`. -/
theorem quantErr (e p : Nat) (he : e ≤ 7) (hlo : 2 ^ (e + 7) ≤ p) (hhi : p < 2 ^ (e + 8)) :
    (p : Int) - ((p / 2 ^ (e + 3) % 16 : Nat) * 8 + 132) * 2 ^ e ≤ 2 ^ (e + 3) ∧
    -(2 ^ (e + 3) : Int) ≤ (p : Int) - ((p / 2 ^ (e + 3) % 16 : Nat) * 8 + 132) * 2 ^ e := by
  interval_cases e <;> constructor <;> omega

/-- Claim C5: for every PCM16 sample `s ∈ [-32635, 32635]`, decoding the µ-law
encoding of `s` differs from `s` by at most the µ-law quantization step of
`s`'s exponent band. -/
theorem pcmToMuLaw_roundTrip (s : Int) (h1 : -32635 ≤ s) (h2 : s ≤ 32635) :
    |muLawToPcm (pcmToMuLawSample s) - s| ≤ muLawStep s := by
  have hb := muLawBiased_spec s h1 h2
  have h128 : 128 ≤ muLawBiased s := by omega
  have hlt : muLawBiased s < 2 ^ (7 + 8) := by
    have : s.natAbs ≤ 32635 := by omega
    omega
  have hloop := expLoop_go 7 (muLawBiased s) h128 hlt
  rw [show (2 : Nat) ^ (7 + 7) = 0x4000 by norm_num] at hloop
  have hsign := muLawSign_spec s (by omega) (by omega)
  rw [pcmToMuLawSample_eq, muLawStep_eq, hsign, Nat.shiftRight_eq_div_pow, and_15_eq]
  set e := expLoop (muLawBiased s) 7 0x4000 with he
  obtain ⟨hlo, hhi, he7⟩ := hloop
  have hq := quantErr e (muLawBiased s) he7 hlo hhi
  have hm16 : muLawBiased s / 2 ^ (e + 3) % 16 < 16 := Nat.mod_lt _ (by norm_num)
  by_cases hs : s < 0
  · rw [if_pos hs]
    have hbyte := (muLawToPcm_byte e (by omega) (muLawBiased s / 2 ^ (e + 3) % 16) hm16).2
    rw [hbyte, abs_le]
    have hps : (muLawBiased s : Int) = -s + 132 := by omega
    constructor <;> linarith [hq.1, hq.2]
  · rw [if_neg hs]
    have hbyte := (muLawToPcm_byte e (by omega) (muLawBiased s / 2 ^ (e + 3) % 16) hm16).1
    rw [hbyte, abs_le]
    have hps : (muLawBiased s : Int) = s + 132 := by omega
    constructor <;> linarith [hq.1, hq.2]

/-- Witness for C5 at the concrete sample `s = 1234`. -/
theorem pcmToMuLaw_roundTrip_witness :
    -32635 ≤ (1234 : Int) ∧ (1234 : Int) ≤ 32635 ∧
    |muLawToPcm (pcmToMuLawSample 1234) - 1234| ≤ muLawStep 1234 :=
  ⟨by decide, by decide, pcmToMuLaw_roundTrip 1234 (by decide) (by decide)⟩

/-! ### Buffers and the 24 kHz → 8 kHz resampler (phone-call.ts lines 734-745)

A Node `Buffer` is embedded as a `List Nat` of bytes (each `< 256`). -/

/-- Bytes of `buf` are valid (below 256). -/
def ValidBytes (buf : List Nat) : Prop := ∀ b ∈ buf, b < 256

instance (l : List Nat) : Decidable (ValidBytes l) := List.decidableBAll _ l

/-- Two's-complement reading of a 16-bit unsigned value. -/
def toSigned16 (u : Nat) : Int :=
  if u < 32768 then (u : Int) else (u : Int) - 65536

/-- Node `Buffer.readInt16LE`: two little-endian bytes as a signed 16-bit
value.  Out-of-range reads yield byte 0 (the source only reads in bounds). -/
def readInt16LE (buf : List Nat) (off : Nat) : Int :=
  toSigned16 (buf.getD off 0 + 256 * buf.getD (off + 1) 0)

/-- Node `Buffer.writeInt16LE`: the two little-endian bytes of the 16-bit
two's-complement representation of `v`. -/
def writeInt16LE (v : Int) : List Nat :=
  let u := (v % 65536).toNat
  [u % 256, u / 256]

/-- `CallManager.resample24kTo8k` (phone-call.ts lines 734-745): take every
third sample.  JS computes `inputSamples = length / 2` (possibly fractional)
and `Math.floor(inputSamples / 3)`; the composition equals `length / 2 / 3`
in natural division.  The `i`-th output sample is written at byte offset
`i * 2`, which the `flatMap` of two-byte writes reproduces. -/
def resample24kTo8k (pcmData : List Nat) : List Nat :=
  let outputSamples := pcmData.length / 2 / 3
  (List.range outputSamples).flatMap fun i => writeInt16LE (readInt16LE pcmData (i * 3 * 2))

/-- Flat-mapping two-byte blocks over `range m` yields `2 * m` bytes. -/
theorem length_flatMap_two (g : Nat → List Nat) (hg : ∀ i, (g i).length = 2) :
    ∀ m, ((List.range m).flatMap g).length = 2 * m := by
  intro m
  induction m with
  | zero => simp
  | succ m ih =>
    rw [List.range_succ, List.flatMap_append, List.length_append, ih]
    simp [hg m]
    omega

/-- Reading block `j` of a flat-map of two-byte blocks gives that block. -/
theorem flatMap_two_getD (g : Nat → List Nat) (hg : ∀ i, (g i).length = 2) :
    ∀ m j, j < m →
      ((List.range m).flatMap g).getD (2 * j) 0 = (g j).getD 0 0 ∧
      ((List.range m).flatMap g).getD (2 * j + 1) 0 = (g j).getD 1 0 := by
  intro m
  induction m with
  | zero => omega
  | succ m ih =>
    intro j hj
    rw [List.range_succ, List.flatMap_append]
    have hlen : ((List.range m).flatMap g).length = 2 * m := length_flatMap_two g hg m
    by_cases hjm : j < m
    · rw [List.getD_append _ _ _ _ (by omega), List.getD_append _ _ _ _ (by omega)]
      exact ih j hjm
    · have hje : j = m := by omega
      subst hje
      rw [List.getD_append_right _ _ _ _ (by omega), List.getD_append_right _ _ _ _ (by omega)]
      rw [hlen]
      constructor
      · rw [show 2 * j - 2 * j = 0 by omega]
        simp
      · rw [show 2 * j + 1 - 2 * j = 1 by omega]
        simp

/-- Reading sample `j` from a flat-map of two-byte blocks reads block `j`. -/
theorem readInt16LE_flatMap_two (g : Nat → List Nat) (hg : ∀ i, (g i).length = 2)
    (m j : Nat) (hj : j < m) :
    readInt16LE ((List.range m).flatMap g) (j * 2) = readInt16LE (g j) 0 := by
  unfold readInt16LE
  rw [show j * 2 = 2 * j by omega]
  obtain ⟨h1, h2⟩ := flatMap_two_getD g hg m j hj
  rw [h1, h2]

/-- Every byte fetched from a valid buffer is below 256. -/
theorem getD_lt_256 (buf : List Nat) (hv : ValidBytes buf) (n : Nat) :
    buf.getD n 0 < 256 := by
  by_cases h : n < buf.length
  · rw [List.getD_eq_getElem _ _ h]
    exact hv _ (List.getElem_mem h)
  · rw [List.getD_eq_default _ _ (by omega)]
    omega

/-- Reads from a valid buffer are 16-bit signed values. -/
theorem readInt16LE_range (buf : List Nat) (hv : ValidBytes buf) (off : Nat) :
    -32768 ≤ readInt16LE buf off ∧ readInt16LE buf off < 32768 := by
  unfold readInt16LE toSigned16
  have h0 := getD_lt_256 buf hv off
  have h1 := getD_lt_256 buf hv (off + 1)
  split_ifs <;> omega

/-- Writing then reading back a 16-bit signed value is the identity. -/
theorem readInt16LE_writeInt16LE (v : Int) (h1 : -32768 ≤ v) (h2 : v < 32768) :
    readInt16LE (writeInt16LE v) 0 = v := by
  unfold readInt16LE writeInt16LE toSigned16
  have hmod : v % 65536 = if 0 ≤ v then v else v + 65536 := by
    split_ifs <;> omega
  simp only [List.getD_cons_zero, List.getD_cons_succ]
  split_ifs at hmod <;> rw [hmod] <;> split_ifs <;> omega

/-- Claim C8: the resampler yields `floor(n/6) * 2` bytes and output sample
`i` equals input sample `3 * i`. -/
theorem resample24kTo8k_spec (pcm : List Nat) (hv : ValidBytes pcm) :
    (resample24kTo8k pcm).length = pcm.length / 6 * 2 ∧
    ∀ i, i < pcm.length / 6 →
      readInt16LE (resample24kTo8k pcm) (i * 2) = readInt16LE pcm (i * 3 * 2) := by
  have hg : ∀ i, (writeInt16LE (readInt16LE pcm (i * 3 * 2))).length = 2 := by
    intro i
    rfl
  have h6 : pcm.length / 2 / 3 = pcm.length / 6 := by omega
  constructor
  · rw [resample24kTo8k, length_flatMap_two _ hg, h6]
    omega
  · intro i hi
    have hrange := readInt16LE_range pcm hv (i * 3 * 2)
    have hrw := readInt16LE_flatMap_two _ hg (pcm.length / 2 / 3) i (by omega)
    calc readInt16LE (resample24kTo8k pcm) (i * 2)
        = readInt16LE (writeInt16LE (readInt16LE pcm (i * 3 * 2))) 0 := hrw
      _ = readInt16LE pcm (i * 3 * 2) := readInt16LE_writeInt16LE _ hrange.1 hrange.2

/-- Witness for C8 on a concrete 8-byte buffer (one complete 6-byte unit). -/
theorem resample24kTo8k_spec_witness :
    ValidBytes [1, 2, 3, 4, 5, 6, 7, 8] ∧
    (resample24kTo8k [1, 2, 3, 4, 5, 6, 7, 8]).length = 8 / 6 * 2 ∧
    readInt16LE (resample24kTo8k [1, 2, 3, 4, 5, 6, 7, 8]) 0 =
      readInt16LE [1, 2, 3, 4, 5, 6, 7, 8] 0 :=
  ⟨by decide, (resample24kTo8k_spec _ (by decide)).1,
    by
      have h := (resample24kTo8k_spec [1, 2, 3, 4, 5, 6, 7, 8] (by decide)).2 0 (by decide)
      simpa using h⟩

/-! ### CallManager state model (phone-call.ts lines 70-534)

The three process-global indices of `CallManager` are JS `Map`s; they are
embedded as function-valued maps plus, for `activeCalls`, the key insertion
order (JS `Map` iteration order), which the ngrok fallback of the upgrade
handler consults.  Keys (`callId`, `callControlId`, `wsToken`) are embedded
as `Nat`. -/

/-- Function-valued embedding of a JS `Map`. -/
abbrev JsMap (α β : Type) := α → Option β

/-- JS `Map.set`. -/
def JsMap.set [DecidableEq α] (m : JsMap α β) (k : α) (v : β) : JsMap α β :=
  fun x => if x = k then some v else m x

/-- JS `Map.delete`. -/
def JsMap.delete [DecidableEq α] (m : JsMap α β) (k : α) : JsMap α β :=
  fun x => if x = k then none else m x

/-- The empty JS `Map`. -/
def JsMap.emptyMap : JsMap α β := fun _ => none

/-- Speaker tag of a `conversationHistory` entry. -/
inductive Speaker where
  | claude
  | user
  deriving DecidableEq, Repr

/-- Per-call state (interface `CallState`, phone-call.ts lines 18-30),
restricted to the fields the claims are about. -/
structure CallState where
  callId : Nat
  callControlId : Option Nat
  wsToken : Nat
  conversationHistory : List (Speaker × String)
  hungUp : Bool
  deriving DecidableEq, Repr

/-- The mutable state of `CallManager` (lines 71-73): the three indices and
the insertion order of `activeCalls`. -/
structure ManagerState where
  activeCalls : JsMap Nat CallState
  callControlIdToCallId : JsMap Nat Nat
  wsTokenToCallId : JsMap Nat Nat
  callOrder : List Nat

/-- The initial manager state: all three indices empty. -/
def mgr0 : ManagerState :=
  { activeCalls := JsMap.emptyMap, callControlIdToCallId := JsMap.emptyMap,
    wsTokenToCallId := JsMap.emptyMap, callOrder := [] }

/-- Successful `initiateCall` (lines 425-484): the call record is created and
registered, the ctrl-id and token indices are populated (lines 450, 460-461),
and after the first speak/listen turn the pair
`(claude, message), (user, resp)` is appended (lines 475-476). -/
def initiateCall (s : ManagerState) (callId ctrlId wsToken : Nat)
    (message resp : String) : ManagerState :=
  let st : CallState :=
    { callId := callId, callControlId := some ctrlId, wsToken := wsToken,
      conversationHistory := [(Speaker.claude, message), (Speaker.user, resp)],
      hungUp := false }
  { s with
    activeCalls := s.activeCalls.set callId st,
    callControlIdToCallId := s.callControlIdToCallId.set ctrlId callId,
    wsTokenToCallId := s.wsTokenToCallId.set wsToken callId,
    callOrder := s.callOrder ++ [callId] }

/-- Failed `initiateCall` where the provider REST call itself rejected: the
ctrl-id and token indices were never populated; the catch (lines 479-483)
removes the `activeCalls` entry again. -/
def initiateCallFailEarly (s : ManagerState) (callId : Nat) (wsToken : Nat) : ManagerState :=
  let st : CallState :=
    { callId := callId, callControlId := none, wsToken := wsToken,
      conversationHistory := [], hungUp := false }
  { s with
    activeCalls := (s.activeCalls.set callId st).delete callId,
    callOrder := (s.callOrder ++ [callId]).filter (· ≠ callId) }

/-- Failed `initiateCall` after the provider call succeeded (attach timeout or
a failed first listen): the ctrl-id and token indices were already populated
(lines 460-461); the catch (line 481) removes only the `activeCalls` entry. -/
def initiateCallFailLate (s : ManagerState) (callId ctrlId wsToken : Nat) : ManagerState :=
  let st : CallState :=
    { callId := callId, callControlId := some ctrlId, wsToken := wsToken,
      conversationHistory := [], hungUp := false }
  { s with
    activeCalls := (s.activeCalls.set callId st).delete callId,
    callControlIdToCallId := s.callControlIdToCallId.set ctrlId callId,
    wsTokenToCallId := s.wsTokenToCallId.set wsToken callId,
    callOrder := (s.callOrder ++ [callId]).filter (· ≠ callId) }

/-- `continueCall` (lines 486-495): throws (`none`) when the call is not
active; on a completed turn appends the `(claude, message), (user, resp)`
pair. -/
def continueCall (s : ManagerState) (callId : Nat) (message resp : String) :
    Option ManagerState :=
  match s.activeCalls callId with
  | none => none
  | some st =>
      let st2 := { st with conversationHistory :=
        st.conversationHistory ++ [(Speaker.claude, message), (Speaker.user, resp)] }
      some { s with activeCalls := s.activeCalls.set callId st2 }

/-- `speakOnly` (lines 497-503): throws (`none`) when the call is not active;
otherwise appends only the `(claude, message)` entry (line 502). -/
def speakOnly (s : ManagerState) (callId : Nat) (message : String) :
    Option ManagerState :=
  match s.activeCalls callId with
  | none => none
  | some st =>
      let st2 := { st with conversationHistory :=
        st.conversationHistory ++ [(Speaker.claude, message)] }
      some { s with activeCalls := s.activeCalls.set callId st2 }

/-- `endCall` (lines 505-534): throws (`none`) when the call is not active;
otherwise sets `hungUp`, removes the token mapping (line 525), the ctrl-id
mapping when present (lines 526-528) and the `activeCalls` entry (line 531). -/
def endCall (s : ManagerState) (callId : Nat) : Option ManagerState :=
  match s.activeCalls callId with
  | none => none
  | some st => some
      { s with
        activeCalls := (s.activeCalls.set callId { st with hungUp := true }).delete callId,
        wsTokenToCallId := s.wsTokenToCallId.delete st.wsToken,
        callControlIdToCallId :=
          match st.callControlId with
          | some c => s.callControlIdToCallId.delete c
          | none => s.callControlIdToCallId,
        callOrder := s.callOrder.filter (· ≠ callId) }

/-- The `call.hangup` branch of `handleTelnyxWebhook` (lines 389-398): remove
the ctrl-id mapping and set `hungUp`; the `activeCalls` and token indices are
left untouched. -/
def hangupWebhook (s : ManagerState) (ctrlId : Nat) : ManagerState :=
  match s.callControlIdToCallId ctrlId with
  | none => s
  | some callId =>
    let s1 := { s with callControlIdToCallId := s.callControlIdToCallId.delete ctrlId }
    match s1.activeCalls callId with
    | none => s1
    | some st =>
        { s1 with activeCalls := s1.activeCalls.set callId { st with hungUp := true } }

/-- One completed operation or processed event on the manager. -/
inductive Op where
  | initiate (callId ctrlId wsToken : Nat) (message resp : String)
  | initiateFailEarly (callId wsToken : Nat)
  | initiateFailLate (callId ctrlId wsToken : Nat)
  | continueOp (callId : Nat) (message resp : String)
  | speakOnlyOp (callId : Nat) (message : String)
  | endOp (callId : Nat)
  | hangupEvent (ctrlId : Nat)
  deriving DecidableEq

/-- Apply one operation; `none` when the operation throws (did not complete). -/
def applyOp (s : ManagerState) : Op → Option ManagerState
  | .initiate callId ctrlId wsToken message resp =>
      some (initiateCall s callId ctrlId wsToken message resp)
  | .initiateFailEarly callId wsToken => some (initiateCallFailEarly s callId wsToken)
  | .initiateFailLate callId ctrlId wsToken =>
      some (initiateCallFailLate s callId ctrlId wsToken)
  | .continueOp callId message resp => continueCall s callId message resp
  | .speakOnlyOp callId message => speakOnly s callId message
  | .endOp callId => endCall s callId
  | .hangupEvent ctrlId => some (hangupWebhook s ctrlId)

/-- Run a sequence of operations; `none` when any of them fails to complete. -/
def runOps (s : ManagerState) : List Op → Option ManagerState
  | [] => some s
  | op :: rest =>
    match applyOp s op with
    | none => none
    | some s1 => runOps s1 rest

/-! ### Claim C1: index cleanup -/

/-- Claim C1, amended to the `end` operation: when `endCall` completes for an
active call, none of the three indices retains the call's entry (its
`callId`, its `wsToken`, and its `callControlId` when present). -/
theorem endCall_cleanup (s : ManagerState) (callId : Nat) (st : CallState)
    (hact : s.activeCalls callId = some st) :
    ((endCall s callId).map fun s' =>
      (s'.activeCalls callId, s'.wsTokenToCallId st.wsToken,
        st.callControlId.bind s'.callControlIdToCallId))
      = some (none, none, none) := by
  unfold endCall
  rw [hact]
  cases hc : st.callControlId <;> simp [hc, JsMap.delete]

/-- Witness for C1 on a call created by a successful initiate. -/
theorem endCall_cleanup_witness :
    ((endCall (initiateCall mgr0 1 10 100 "a" "b") 1).map fun s' =>
      (s'.activeCalls 1, s'.wsTokenToCallId 100,
        (some 10).bind s'.callControlIdToCallId))
      = some (none, none, none) :=
  endCall_cleanup (initiateCall mgr0 1 10 100 "a" "b") 1
    { callId := 1, callControlId := some 10, wsToken := 100,
      conversationHistory := [(Speaker.claude, "a"), (Speaker.user, "b")],
      hungUp := false }
    rfl

/-- Counterexample to C1 as stated: the remote-hangup webhook is a terminal
event, yet after it the `wsToken` index still maps the call's token (and the
`callId` index still holds the call). -/
theorem index_cleanup_cex :
    ((runOps mgr0 [Op.initiate 1 10 100 "hello" "ok", Op.hangupEvent 10]).bind
      fun s => s.wsTokenToCallId 100) = some 1 ∧
    ((runOps mgr0 [Op.initiate 1 10 100 "hello" "ok", Op.hangupEvent 10]).bind
      fun s => (s.activeCalls 1).map fun st => st.hungUp) = some true := by
  constructor <;> rfl

/-! ### Claim C3: history alternation -/

/-- The speaker expected after one more entry. -/
def nextSpeaker : Speaker → Speaker
  | .claude => .user
  | .user => .claude

/-- History alternation from an expected first speaker. -/
def altFrom : Speaker → List (Speaker × String) → Bool
  | _, [] => true
  | sp, e :: rest => e.1 == sp && altFrom (nextSpeaker sp) rest

/-- Strict `agent, user, agent, user, …` alternation starting with the agent
(`claude` in the source's speaker tags). -/
def strictAlt (l : List (Speaker × String)) : Bool := altFrom Speaker.claude l

/-- Whether an operation is the history-unbalanced `speakOnly`. -/
def Op.isSpeakOnly : Op → Bool
  | .speakOnlyOp _ _ => true
  | _ => false

theorem nextSpeaker_nextSpeaker (sp : Speaker) : nextSpeaker (nextSpeaker sp) = sp := by
  cases sp <;> rfl

theorem altFrom_append (a b : List (Speaker × String)) (sp : Speaker) :
    altFrom sp (a ++ b) =
      (altFrom sp a && altFrom (if a.length % 2 = 0 then sp else nextSpeaker sp) b) := by
  induction a generalizing sp with
  | nil => simp [altFrom]
  | cons e a ih =>
    rw [List.cons_append, altFrom, altFrom, ih (nextSpeaker sp)]
    by_cases h : a.length % 2 = 0
    · have h1 : ¬((e :: a).length % 2 = 0) := by
        simp only [List.length_cons]
        omega
      rw [if_pos h, if_neg h1, Bool.and_assoc]
    · have h1 : (e :: a).length % 2 = 0 := by
        simp only [List.length_cons]
        omega
      rw [if_neg h, if_pos h1, nextSpeaker_nextSpeaker, Bool.and_assoc]

theorem strictAlt_append_pair (h : List (Speaker × String)) (m r : String)
    (ha : strictAlt h = true) (hev : h.length % 2 = 0) :
    strictAlt (h ++ [(Speaker.claude, m), (Speaker.user, r)]) = true ∧
    (h ++ [(Speaker.claude, m), (Speaker.user, r)]).length % 2 = 0 := by
  constructor
  · unfold strictAlt at ha ⊢
    rw [altFrom_append, ha, if_pos hev]
    simp [altFrom, nextSpeaker]
  · simp
    omega

/-- Invariant: every active call's history strictly alternates and has even
length (each completed turn appends an agent/user pair). -/
def AltInv (s : ManagerState) : Prop :=
  ∀ cid st, s.activeCalls cid = some st →
    strictAlt st.conversationHistory = true ∧ st.conversationHistory.length % 2 = 0

theorem altInv_mgr0 : AltInv mgr0 := by
  intro cid st h
  simp [mgr0, JsMap.emptyMap] at h

theorem altInv_applyOp (s s' : ManagerState) (op : Op)
    (hinv : AltInv s) (hop : op.isSpeakOnly = false)
    (happ : applyOp s op = some s') : AltInv s' := by
  cases op with
  | initiate callId ctrlId wsToken message resp =>
    simp only [applyOp, Option.some.injEq] at happ
    subst happ
    intro cid st h
    simp only [initiateCall, JsMap.set] at h
    by_cases hc : cid = callId
    · rw [if_pos hc] at h
      cases h
      exact ⟨rfl, by simp⟩
    · rw [if_neg hc] at h
      exact hinv cid st h
  | initiateFailEarly callId wsToken =>
    simp only [applyOp, Option.some.injEq] at happ
    subst happ
    intro cid st h
    simp only [initiateCallFailEarly, JsMap.delete, JsMap.set] at h
    by_cases hc : cid = callId
    · rw [if_pos hc] at h
      cases h
    · rw [if_neg hc, if_neg hc] at h
      exact hinv cid st h
  | initiateFailLate callId ctrlId wsToken =>
    simp only [applyOp, Option.some.injEq] at happ
    subst happ
    intro cid st h
    simp only [initiateCallFailLate, JsMap.delete, JsMap.set] at h
    by_cases hc : cid = callId
    · rw [if_pos hc] at h
      cases h
    · rw [if_neg hc, if_neg hc] at h
      exact hinv cid st h
  | continueOp callId message resp =>
    simp only [applyOp, continueCall] at happ
    cases hact : s.activeCalls callId with
    | none => rw [hact] at happ; cases happ
    | some st0 =>
      rw [hact] at happ
      simp only [Option.some.injEq] at happ
      subst happ
      intro cid st h
      simp only [JsMap.set] at h
      by_cases hc : cid = callId
      · rw [if_pos hc] at h
        obtain ⟨h0, h1⟩ := hinv callId st0 hact
        cases h
        exact strictAlt_append_pair _ message resp h0 h1
      · rw [if_neg hc] at h
        exact hinv cid st h
  | speakOnlyOp callId message =>
    simp [Op.isSpeakOnly] at hop
  | endOp callId =>
    simp only [applyOp, endCall] at happ
    cases hact : s.activeCalls callId with
    | none => rw [hact] at happ; cases happ
    | some st0 =>
      rw [hact] at happ
      simp only [Option.some.injEq] at happ
      subst happ
      intro cid st h
      simp only [JsMap.delete, JsMap.set] at h
      by_cases hc : cid = callId
      · rw [if_pos hc] at h
        cases h
      · rw [if_neg hc, if_neg hc] at h
        exact hinv cid st h
  | hangupEvent ctrlId =>
    simp only [applyOp, Option.some.injEq] at happ
    subst happ
    intro cid st h
    unfold hangupWebhook at h
    cases hctrl : s.callControlIdToCallId ctrlId with
    | none =>
      simp only [hctrl] at h
      exact hinv cid st h
    | some callId =>
      simp only [hctrl] at h
      cases hact : s.activeCalls callId with
      | none =>
        simp only [hact] at h
        exact hinv cid st h
      | some st0 =>
        simp only [hact, JsMap.set] at h
        by_cases hc : cid = callId
        · rw [if_pos hc] at h
          obtain ⟨h0, h1⟩ := hinv callId st0 hact
          cases h
          exact ⟨h0, h1⟩
        · rw [if_neg hc] at h
          exact hinv cid st h

theorem altInv_runOps (ops : List Op) :
    ∀ s0 s, AltInv s0 → (∀ op ∈ ops, op.isSpeakOnly = false) →
      runOps s0 ops = some s → AltInv s := by
  induction ops with
  | nil =>
    intro s0 s hinv _ hrun
    simp only [runOps, Option.some.injEq] at hrun
    subst hrun
    exact hinv
  | cons op rest ih =>
    intro s0 s hinv hno hrun
    simp only [runOps] at hrun
    cases happ : applyOp s0 op with
    | none => rw [happ] at hrun; cases hrun
    | some s1 =>
      rw [happ] at hrun
      have h1 := altInv_applyOp s0 s1 op hinv (hno op (by simp)) happ
      exact ih s1 s h1 (fun o ho => hno o (by simp [ho])) hrun

/-- Claim C3, amended to exclude `speakOnly`: after any sequence of completed
initiate / continue / end operations (and webhook events), every active
call's history strictly alternates `agent, user, agent, user, …` starting
with the agent. -/
theorem history_alternation (ops : List Op)
    (hno : ∀ op ∈ ops, op.isSpeakOnly = false)
    (s : ManagerState) (hrun : runOps mgr0 ops = some s) :
    ∀ cid st, s.activeCalls cid = some st → strictAlt st.conversationHistory = true := by
  intro cid st h
  exact (altInv_runOps ops mgr0 s altInv_mgr0 hno hrun cid st h).1

/-- Call state reached by the C3 witness run. -/
def contWitnessState : CallState :=
  { callId := 1, callControlId := some 10, wsToken := 100,
    conversationHistory := [(Speaker.claude, "a"), (Speaker.user, "b"), (Speaker.claude, "c"), (Speaker.user, "d")],
    hungUp := false }

/-- Witness for C3: an initiate followed by a completed continue turn. -/
theorem history_alternation_witness :
    ((runOps mgr0 [Op.initiate 1 10 100 "a" "b", Op.continueOp 1 "c" "d"]).bind
      fun s => (s.activeCalls 1).map fun st => strictAlt st.conversationHistory)
      = some true := by
  cases hrun : runOps mgr0 [Op.initiate 1 10 100 "a" "b", Op.continueOp 1 "c" "d"] with
  | none =>
    have hiss : (runOps mgr0 [Op.initiate 1 10 100 "a" "b",
        Op.continueOp 1 "c" "d"]).isSome = true := rfl
    rw [hrun] at hiss
    cases hiss
  | some s =>
    have hst : s.activeCalls 1 = some contWitnessState := by
      have h0 : (runOps mgr0 [Op.initiate 1 10 100 "a" "b",
          Op.continueOp 1 "c" "d"]).bind (fun s => s.activeCalls 1)
          = some contWitnessState := rfl
      rw [hrun] at h0
      simpa using h0
    have halt := history_alternation [Op.initiate 1 10 100 "a" "b",
      Op.continueOp 1 "c" "d"] (by decide) s hrun 1 _ hst
    simp [hst, halt]

/-- Counterexample to C3 as stated: two `speakOnly` operations after a
successful initiate leave a history `claude, user, claude, claude`, which
does not strictly alternate. -/
theorem history_alternation_cex :
    ((runOps mgr0 [Op.initiate 1 10 100 "a" "b", Op.speakOnlyOp 1 "c",
        Op.speakOnlyOp 1 "d"]).bind
      fun s => (s.activeCalls 1).map fun st => strictAlt st.conversationHistory)
      = some false := by
  rfl

/-! ### Claim C2: speakStreaming with a closed socket (lines 615-669)

The websocket is embedded as `wsOpenAt : Nat → Bool`, the value of the guard
`state.ws?.readyState === WebSocket.OPEN` at its `k`-th evaluation inside the
frame-emission loop; this lets the socket close at any point during emission.
The function mutates none of the call state in the source — in particular it
never assigns `hungUp` — so the model returns the original flag. -/

/-- `CallManager.pcmToMuLaw` (lines 747-754): one µ-law byte per PCM16
sample. -/
def pcmToMuLaw (pcmData : List Nat) : List Nat :=
  (List.range (pcmData.length / 2)).map fun i => pcmToMuLawSample (readInt16LE pcmData (i * 2))

/-- One outbound media frame: the µ-law payload and the echoed `streamSid`
(lines 644-651). -/
structure MediaFrame where
  payload : List Nat
  streamSid : Option Nat
  deriving DecidableEq

/-- The inner `while (pendingMuLaw.length >= OUTPUT_CHUNK_SIZE)` loop
(lines 638-654): emit 160-byte frames, sending only when the socket is open.
`fuel` bounds the iterations (the caller passes the buffer length); `k`
counts guard evaluations.  Returns the remaining buffer, the frames sent,
and the updated guard counter. -/
def emitFrames (wsOpenAt : Nat → Bool) (sid : Option Nat) :
    Nat → Nat → List Nat → List Nat × List MediaFrame × Nat
  | 0, k, pending => (pending, [], k)
  | fuel + 1, k, pending =>
    if 160 ≤ pending.length then
      let sent := if wsOpenAt k then [⟨pending.take 160, sid⟩] else []
      match emitFrames wsOpenAt sid fuel (k + 1) (pending.drop 160) with
      | (pending2, fs, k2) => (pending2, sent ++ fs, k2)
    else (pending, [], k)

/-- The `for await (const chunk of synthesizeStream(text))` loop
(lines 625-656): accumulate PCM, process whole 6-byte units, and emit. -/
def speakChunks (wsOpenAt : Nat → Bool) (sid : Option Nat) :
    List (List Nat) → List Nat → List Nat → Nat →
      List Nat × List Nat × List MediaFrame × Nat
  | [], pPcm, pMu, k => (pPcm, pMu, [], k)
  | chunk :: rest, pPcm, pMu, k =>
    let pPcm1 := pPcm ++ chunk
    let completeUnits := pPcm1.length / 6
    if 0 < completeUnits then
      let bytesToProcess := completeUnits * 6
      let muLaw := pcmToMuLaw (resample24kTo8k (pPcm1.take bytesToProcess))
      let pMu1 := pMu ++ muLaw
      match emitFrames wsOpenAt sid pMu1.length k pMu1 with
      | (pMu2, fs1, k1) =>
        match speakChunks wsOpenAt sid rest (pPcm1.drop bytesToProcess) pMu2 k1 with
        | (pPcm3, pMu3, fs2, k2) => (pPcm3, pMu3, fs1 ++ fs2, k2)
    else
      speakChunks wsOpenAt sid rest pPcm1 pMu k

/-- Result of a `speakStreaming` call: the frames put on the wire and the
call's `hungUp` flag when the function returns. -/
structure SpeakOutcome where
  frames : List MediaFrame
  hungUp : Bool
  deriving DecidableEq

/-- `CallManager.speakStreaming` (lines 615-669): stream, then flush the
trailing partial buffer when the socket is open (lines 659-668).  `hungUp`
is the value of `state.hungUp` at entry; the source contains no assignment
to it, and no send is attempted on a closed socket, so the function cannot
throw. -/
def speakStreaming (wsOpenAt : Nat → Bool) (sid : Option Nat) (hungUp : Bool)
    (chunks : List (List Nat)) : SpeakOutcome :=
  match speakChunks wsOpenAt sid chunks [] [] 0 with
  | (_, pMu, fs, k) =>
    let finalFrames := if 0 < pMu.length ∧ wsOpenAt k then [⟨pMu, sid⟩] else []
    { frames := fs ++ finalFrames, hungUp := hungUp }

theorem emitFrames_closed (sid : Option Nat) :
    ∀ fuel k pending, (emitFrames (fun _ => false) sid fuel k pending).2.1 = [] := by
  intro fuel
  induction fuel with
  | zero => intro k pending; rfl
  | succ fuel ih =>
    intro k pending
    rw [emitFrames]
    split
    · have := ih (k + 1) (pending.drop 160)
      cases hr : emitFrames (fun _ => false) sid fuel (k + 1) (pending.drop 160) with
      | mk p2 r =>
        cases r with
        | mk fs k2 =>
          rw [hr] at this
          simp at this
          simp [this]
    · rfl

theorem speakChunks_closed (sid : Option Nat) :
    ∀ chunks pPcm pMu k,
      (speakChunks (fun _ => false) sid chunks pPcm pMu k).2.2.1 = [] := by
  intro chunks
  induction chunks with
  | nil => intro pPcm pMu k; rfl
  | cons chunk rest ih =>
    intro pPcm pMu k
    rw [speakChunks]
    split
    · simp only []
      rw [emitFrames_closed, ih]
      rfl
    · exact ih (pPcm ++ chunk) pMu k

/-- Claim C2, amended: `speakStreaming` never modifies `hungUp` (whatever the
socket does), and with the socket closed it emits nothing and returns
normally; closed-socket frames are silently skipped rather than treated as a
hangup. -/
theorem speakStreaming_closed_socket (wsOpenAt : Nat → Bool) (sid : Option Nat)
    (h0 : Bool) (chunks : List (List Nat)) :
    (speakStreaming wsOpenAt sid h0 chunks).hungUp = h0 ∧
    (speakStreaming (fun _ => false) sid h0 chunks).frames = [] := by
  constructor
  · unfold speakStreaming
    cases speakChunks wsOpenAt sid chunks [] [] 0 with
    | mk a r =>
      cases r with
      | mk pMu r2 =>
        cases r2 with
        | mk fs k => rfl
  · unfold speakStreaming
    have h := speakChunks_closed sid chunks [] [] 0
    cases hs : speakChunks (fun _ => false) sid chunks [] [] 0 with
    | mk a r =>
      cases r with
      | mk pMu r2 =>
        cases r2 with
        | mk fs k =>
          rw [hs] at h
          simp at h
          simp [h]

set_option maxRecDepth 8000 in
/-- Counterexample to C2 as stated: the socket is open for the first frame
and closed from the second frame on (closed while frames are being emitted);
the operation returns normally with one frame sent and `hungUp` still
`false`, whereas the claim requires `hungUp` to be set. -/
theorem speakStreaming_hangup_cex :
    (speakStreaming (fun k => k == 0) none false
      (List.replicate 12 (List.replicate 160 0))).hungUp = false ∧
    (speakStreaming (fun k => k == 0) none false
      (List.replicate 12 (List.replicate 160 0))).frames.length = 1 := by
  constructor
  · rfl
  · rfl

/-! ### Claim C4: websocket upgrade token authentication (lines 104-153) -/

/-- Modelled from the spec: `webhook-security.ts` is not under the sources;
the spec says to verify `constantTimeEquals(call.wsToken, token)`.  In the
value model constant-time equality is equality. -/
def validateWebSocketToken (expected provided : Nat) : Bool :=
  expected == provided

/-- Outcome of the `/media-stream` upgrade handler. -/
inductive UpgradeResult where
  | accept (callId : Nat)
  | acceptFallback (callId : Nat)
  | acceptPlaceholder
  | reject401
  deriving DecidableEq

/-- The ngrok-free-tier fallback (lines 124-136): attach to the most
recently created active call, or a placeholder when none exists. -/
def ngrokFallback (s : ManagerState) : UpgradeResult :=
  match s.callOrder.getLast? with
  | some recent => .acceptFallback recent
  | none => .acceptPlaceholder

/-- The `/media-stream` branch of the upgrade handler (lines 104-149):
look up the token, validate it against the call, and only on an
ngrok-free-tier public host fall back when the token is absent or unknown. -/
def upgradeDecision (s : ManagerState) (isNgrokFreeTier : Bool)
    (token : Option Nat) : UpgradeResult :=
  match token with
  | some t =>
    match s.wsTokenToCallId t with
    | some cid =>
      match s.activeCalls cid with
      | none => .reject401
      | some st => if validateWebSocketToken st.wsToken t then .accept cid else .reject401
    | none =>
      if isNgrokFreeTier then ngrokFallback s else .reject401
  | none =>
    if isNgrokFreeTier then ngrokFallback s else .reject401

/-- Claim C4: on a non-ephemeral host, an absent, unknown, stale or
mismatched token is rejected with 401, and the correct `wsToken` of an
active call is accepted. -/
theorem upgradeDecision_auth (s : ManagerState) (t : Nat) :
    (upgradeDecision s false none = UpgradeResult.reject401) ∧
    (s.wsTokenToCallId t = none →
      upgradeDecision s false (some t) = UpgradeResult.reject401) ∧
    (∀ cid, s.wsTokenToCallId t = some cid → s.activeCalls cid = none →
      upgradeDecision s false (some t) = UpgradeResult.reject401) ∧
    (∀ cid st, s.wsTokenToCallId t = some cid → s.activeCalls cid = some st →
      st.wsToken ≠ t →
      upgradeDecision s false (some t) = UpgradeResult.reject401) ∧
    (∀ cid st, s.wsTokenToCallId t = some cid → s.activeCalls cid = some st →
      st.wsToken = t →
      upgradeDecision s false (some t) = UpgradeResult.accept cid) := by
  refine ⟨rfl, ?_, ?_, ?_, ?_⟩
  · intro h
    simp [upgradeDecision, h]
  · intro cid h1 h2
    simp [upgradeDecision, h1, h2]
  · intro cid st h1 h2 h3
    simp [upgradeDecision, h1, h2, validateWebSocketToken, h3]
  · intro cid st h1 h2 h3
    simp [upgradeDecision, h1, h2, validateWebSocketToken, h3]

/-- Witness for C4 in the state after a successful initiate: the registered
token is accepted, a wrong token is rejected. -/
theorem upgradeDecision_auth_witness :
    upgradeDecision (initiateCall mgr0 1 10 100 "a" "b") false (some 100)
      = UpgradeResult.accept 1 ∧
    upgradeDecision (initiateCall mgr0 1 10 100 "a" "b") false (some 999)
      = UpgradeResult.reject401 ∧
    upgradeDecision (initiateCall mgr0 1 10 100 "a" "b") false none
      = UpgradeResult.reject401 :=
  ⟨(upgradeDecision_auth (initiateCall mgr0 1 10 100 "a" "b") 100).2.2.2.2 1
      { callId := 1, callControlId := some 10, wsToken := 100,
        conversationHistory := [(Speaker.claude, "a"), (Speaker.user, "b")],
        hungUp := false }
      rfl rfl rfl,
    (upgradeDecision_auth (initiateCall mgr0 1 10 100 "a" "b") 999).2.1 rfl,
    (upgradeDecision_auth (initiateCall mgr0 1 10 100 "a" "b") 999).1⟩

/-! ### Claim C7: Twilio webhook signature carve-out (lines 269-305) -/

/-- Response of the form-urlencoded webhook path. -/
inductive TwilioResponse where
  | invalidSignature
  | emptyTwiml
  | streamXml (token : Option Nat)
  deriving DecidableEq

/-- `CallManager.handleTwilioWebhook` (lines 313-356): terminal statuses mark
the call hung up and drop the provider index entry; any other status answers
with the stream-connect document carrying the call's token when known. -/
def handleTwilioWebhook (s : ManagerState) (callSid : Option Nat)
    (callStatus : Option String) : ManagerState × TwilioResponse :=
  if callStatus = some "completed" ∨ callStatus = some "busy" ∨
      callStatus = some "no-answer" ∨ callStatus = some "failed" then
    match callSid with
    | some sid =>
      match s.callControlIdToCallId sid with
      | some callId =>
        let s1 := { s with callControlIdToCallId := s.callControlIdToCallId.delete sid }
        match s1.activeCalls callId with
        | some st =>
          ({ s1 with activeCalls := s1.activeCalls.set callId { st with hungUp := true } },
            .emptyTwiml)
        | none => (s1, .emptyTwiml)
      | none => (s, .emptyTwiml)
    | none => (s, .emptyTwiml)
  else
    let token : Option Nat :=
      match callSid with
      | some sid =>
        match s.callControlIdToCallId sid with
        | some callId => (s.activeCalls callId).map (fun st => st.wsToken)
        | none => none
      | none => none
    (s, .streamXml token)

/-- The form-urlencoded branch of `handlePhoneWebhook` (lines 269-305):
`sigValid` is the outcome of `validateTwilioSignature` (modelled from the
spec; `webhook-security.ts` is not under the sources).  An invalid signature
is rejected with 401 unless the public host is the ngrok free tier, in which
case the mismatch is only logged and the webhook is processed. -/
def handleFormWebhook (s : ManagerState) (sigValid isNgrokFreeTier : Bool)
    (callSid : Option Nat) (callStatus : Option String) :
    ManagerState × TwilioResponse :=
  if sigValid then handleTwilioWebhook s callSid callStatus
  else if isNgrokFreeTier then handleTwilioWebhook s callSid callStatus
  else (s, .invalidSignature)

/-- Claim C7: a webhook whose signature fails verification is processed
anyway on an ngrok-free-tier host, and on any other host it is answered with
401 and causes no state change. -/
theorem handleFormWebhook_sig (s : ManagerState) (callSid : Option Nat)
    (callStatus : Option String) :
    handleFormWebhook s false false callSid callStatus
      = (s, TwilioResponse.invalidSignature) ∧
    handleFormWebhook s false true callSid callStatus
      = handleTwilioWebhook s callSid callStatus := by
  constructor <;> rfl

/-! ### Claim C6: the listen race (lines 693-732) -/

/-- Which promise of `Promise.race([waitForTranscript, waitForHangup])`
settles first: the transcript resolution, the hangup watcher's rejection
(the 100 ms poll saw `hungUp`), or the transcript-timeout rejection. -/
inductive RaceWinner where
  | transcript (text : String)
  | hangupReject
  | timeoutReject
  deriving DecidableEq

/-- Errors `listen` can raise. -/
inductive ListenError where
  | userHungUp
  | transcriptTimeout
  deriving DecidableEq

/-- `CallManager.listen` (lines 693-712) after the race settles: a rejection
propagates; a transcript is returned only after the explicit
`if (state.hungUp) throw` re-check (lines 706-708), `hungUpAtCheck` being
the flag's value at that moment. -/
def listen (winner : RaceWinner) (hungUpAtCheck : Bool) : Except ListenError String :=
  match winner with
  | .transcript t =>
    if hungUpAtCheck then .error .userHungUp else .ok t
  | .hangupReject => .error .userHungUp
  | .timeoutReject => .error .transcriptTimeout

/-- Claim C6, amended: whichever promise settles first determines the
outcome, except that a transcript that wins the race while `hungUp` is
already set (the 100 ms poll had not yet observed it) still raises
`UserHungUp`; a hangup rejection raises `UserHungUp`; a timeout rejection
raises the timeout error. -/
theorem listen_race (t : String) (b : Bool) :
    listen (RaceWinner.transcript t) false = Except.ok t ∧
    listen (RaceWinner.transcript t) true = Except.error ListenError.userHungUp ∧
    listen RaceWinner.hangupReject b = Except.error ListenError.userHungUp ∧
    listen RaceWinner.timeoutReject b = Except.error ListenError.transcriptTimeout := by
  refine ⟨rfl, rfl, ?_, ?_⟩ <;> cases b <;> rfl

/-- Counterexample to C6 as stated: the transcript resolves first (the
hangup poll has not fired), yet because `hungUp` is already set the listen
raises `UserHungUp` instead of returning the transcript. -/
theorem listen_race_cex :
    listen (RaceWinner.transcript "ok") true = Except.error ListenError.userHungUp ∧
    listen (RaceWinner.transcript "ok") true ≠ Except.ok "ok" := by
  constructor
  · rfl
  · intro h
    cases h

/-! ### Claim C9: STT session reconnection (stt-openai-realtime.ts lines 274-485)

The event-driven session is embedded as a step relation over explicit
events: the websocket `close` event, the websocket `open` event, a call to
`close()`, and the elapse of a scheduled backoff delay.  Scheduling a
reconnect (entering the backoff wait of `attemptReconnect`) and invoking
`doConnect` from it are recorded as actions. -/

/-- Session state: `connected`, `closed`, `reconnectAttempts` (lines
279-284) and whether a backoff delay is pending (the `await` at line 383). -/
structure SttState where
  connected : Bool
  closed : Bool
  reconnectAttempts : Nat
  pendingDelay : Option Nat
  deriving DecidableEq

/-- `maxReconnectAttempts = 5` (line 285). -/
def maxReconnectAttempts : Nat := 5

/-- `reconnectDelayMs = 1000` (line 286). -/
def reconnectDelayMs : Nat := 1000

/-- Events driving the session. -/
inductive SttEv where
  | wsClosed
  | wsOpen
  | closeCall
  | timerFire
  deriving DecidableEq

/-- Observable reconnection activity. -/
inductive SttAction where
  | scheduleReconnect (attempt delay : Nat)
  | connectAttempt
  deriving DecidableEq

/-- One step of the session.
`closeCall` is `close()` (lines 473-480): set `closed`, drop the socket.
`wsOpen` is the `open` handler (lines 311-314): connected, attempts reset.
`wsClosed` is the `close` handler (lines 350-358) followed by the entry
checks of `attemptReconnect` (lines 368-382): no reconnect when closed or
when the attempt cap is reached; otherwise increment the counter and start
the exponential backoff delay `reconnectDelayMs * 2 ^ (attempts - 1)`.
`timerFire` is the end of that delay (lines 383-391): re-check `closed`,
then invoke `doConnect`. -/
def sttStep (s : SttState) : SttEv → SttState × List SttAction
  | .closeCall =>
    ({ s with closed := true, connected := false }, [])
  | .wsOpen =>
    ({ s with connected := true, reconnectAttempts := 0 }, [])
  | .wsClosed =>
    let s1 := { s with connected := false }
    if s1.closed then (s1, [])
    else if maxReconnectAttempts ≤ s1.reconnectAttempts then (s1, [])
    else
      let a := s1.reconnectAttempts + 1
      let delay := reconnectDelayMs * 2 ^ (a - 1)
      ({ s1 with reconnectAttempts := a, pendingDelay := some delay },
        [.scheduleReconnect a delay])
  | .timerFire =>
    match s.pendingDelay with
    | none => (s, [])
    | some _ =>
      let s1 := { s with pendingDelay := none }
      if s1.closed then (s1, [])
      else (s1, [.connectAttempt])

/-- Run a trace of events, accumulating the emitted actions. -/
def sttRun (s : SttState) : List SttEv → SttState × List SttAction
  | [] => (s, [])
  | ev :: rest =>
    match sttStep s ev with
    | (s1, as1) =>
      match sttRun s1 rest with
      | (s2, as2) => (s2, as1 ++ as2)

/-- State right after a successful `connect()` (lines 294-298, 311-314). -/
def sttInit : SttState :=
  { connected := true, closed := false, reconnectAttempts := 0, pendingDelay := none }

theorem sttStep_closed (s : SttState) (ev : SttEv) (h : s.closed = true) :
    (sttStep s ev).1.closed = true ∧ (sttStep s ev).2 = [] := by
  cases ev with
  | closeCall => exact ⟨rfl, rfl⟩
  | wsOpen => exact ⟨h, rfl⟩
  | wsClosed => simp [sttStep, h]
  | timerFire =>
    cases hp : s.pendingDelay with
    | none => simp [sttStep, hp, h]
    | some d => simp [sttStep, hp, h]

theorem sttStep_attempts (s : SttState) (ev : SttEv)
    (h : s.reconnectAttempts ≤ maxReconnectAttempts) :
    (sttStep s ev).1.reconnectAttempts ≤ maxReconnectAttempts ∧
    ∀ a d, SttAction.scheduleReconnect a d ∈ (sttStep s ev).2 →
      d = reconnectDelayMs * 2 ^ (a - 1) ∧ 1 ≤ a ∧ a ≤ maxReconnectAttempts := by
  cases ev with
  | closeCall =>
    refine ⟨h, ?_⟩
    intro a d hmem
    cases hmem
  | wsOpen =>
    refine ⟨by simp [sttStep, maxReconnectAttempts], ?_⟩
    intro a d hmem
    cases hmem
  | wsClosed =>
    by_cases hc : s.closed = true
    · refine ⟨by simp [sttStep, hc]; omega, ?_⟩
      intro a d hmem
      simp [sttStep, hc] at hmem
    · by_cases hm : maxReconnectAttempts ≤ s.reconnectAttempts
      · refine ⟨by simp [sttStep, hc, hm]; omega, ?_⟩
        intro a d hmem
        simp [sttStep, hc, hm] at hmem
      · constructor
        · simp [sttStep, hc, hm]
          omega
        · intro a d hmem
          simp [sttStep, hc, hm] at hmem
          obtain ⟨ha, hd⟩ := hmem
          subst ha
          subst hd
          refine ⟨rfl, by omega, by omega⟩
  | timerFire =>
    cases hp : s.pendingDelay with
    | none =>
      refine ⟨by simp [sttStep, hp]; omega, ?_⟩
      intro a d hmem
      simp [sttStep, hp] at hmem
    | some dd =>
      by_cases hc : s.closed = true
      · refine ⟨by simp [sttStep, hp, hc]; omega, ?_⟩
        intro a d hmem
        simp [sttStep, hp, hc] at hmem
      · refine ⟨by simp [sttStep, hp, hc]; omega, ?_⟩
        intro a d hmem
        simp [sttStep, hp, hc] at hmem

theorem sttRun_closed (evs : List SttEv) :
    ∀ s : SttState, s.closed = true → (sttRun s evs).2 = [] := by
  induction evs with
  | nil => intro s _; rfl
  | cons ev rest ih =>
    intro s h
    obtain ⟨h1, h2⟩ := sttStep_closed s ev h
    cases hstep : sttStep s ev with
    | mk s1 as1 =>
      rw [hstep] at h1 h2
      simp only at h1 h2
      cases hrun : sttRun s1 rest with
      | mk s2 as2 =>
        have h3 := ih s1 h1
        rw [hrun] at h3
        simp only at h3
        rw [sttRun, hstep]
        simp only []
        rw [hrun]
        simp [h2, h3]

theorem sttRun_attempts (evs : List SttEv) :
    ∀ s : SttState, s.reconnectAttempts ≤ maxReconnectAttempts →
      ∀ a d, SttAction.scheduleReconnect a d ∈ (sttRun s evs).2 →
        d = reconnectDelayMs * 2 ^ (a - 1) ∧ 1 ≤ a ∧ a ≤ maxReconnectAttempts := by
  induction evs with
  | nil =>
    intro s _ a d hmem
    cases hmem
  | cons ev rest ih =>
    intro s h a d hmem
    obtain ⟨h1, h2⟩ := sttStep_attempts s ev h
    rw [sttRun] at hmem
    cases hstep : sttStep s ev with
    | mk s1 as1 =>
      rw [hstep] at hmem h1 h2
      simp only at hmem h1 h2
      cases hrun : sttRun s1 rest with
      | mk s2 as2 =>
        rw [hrun] at hmem
        simp only [List.mem_append] at hmem
        cases hmem with
        | inl hin => exact h2 a d hin
        | inr hin =>
          have := ih s1 h1 a d
          rw [hrun] at this
          exact this hin

/-- Claim C9: from any state in which `close()` has been called, no trace of
events ever schedules or makes a reconnection attempt; and every reconnect
scheduled from a session started by `connect()` is attempt `a ∈ [1, 5]` with
exponential backoff delay `1000 * 2 ^ (a - 1)` ms (1 s, 2 s, 4 s, …, capped
at 5 attempts). -/
theorem stt_reconnect_spec (evs : List SttEv) :
    (∀ s : SttState, s.closed = true → (sttRun s evs).2 = []) ∧
    (∀ a d, SttAction.scheduleReconnect a d ∈ (sttRun sttInit evs).2 →
      d = reconnectDelayMs * 2 ^ (a - 1) ∧ 1 ≤ a ∧ a ≤ maxReconnectAttempts) :=
  ⟨sttRun_closed evs,
    sttRun_attempts evs sttInit (by simp [sttInit, maxReconnectAttempts])⟩

/-- State of an intentionally closed session, for the C9 witness. -/
def sttClosedState : SttState :=
  { connected := false, closed := true, reconnectAttempts := 0, pendingDelay := none }

/-- Witness for C9: a closed session ignores a socket drop, and a drop on a
live session schedules attempt 1 with a 1000 ms delay. -/
theorem stt_reconnect_spec_witness :
    (sttRun sttClosedState [SttEv.wsClosed]).2 = [] ∧
    (1000 = reconnectDelayMs * 2 ^ (1 - 1) ∧ 1 ≤ 1 ∧ 1 ≤ maxReconnectAttempts) :=
  ⟨(stt_reconnect_spec [SttEv.wsClosed]).1 sttClosedState rfl,
    (stt_reconnect_spec [SttEv.wsClosed]).2 1 1000 (by decide)⟩

/-! ### Claim C10: waitForTranscript waiter replacement (lines 458-471)

`waitForTranscript` installs its promise's resolver as the single
`onTranscriptCallback` slot and arms a timeout that unconditionally clears
the slot and rejects.  Waiters are identified by `Nat` ids, fresh per call;
a promise settles at most once. -/

/-- Settlement state of one waiter's promise. -/
inductive PromState where
  | pending
  | resolved (t : String)
  | rejectedTimeout
  deriving DecidableEq

/-- Pointwise function update. -/
def updFn [DecidableEq α] (f : α → β) (k : α) (v : β) : α → β :=
  fun x => if x = k then v else f x

/-- The session's waiter bookkeeping: which waiter currently owns
`onTranscriptCallback` (`slot`), each waiter's promise, and whether each
waiter's timeout is still armed. -/
structure WaitState where
  slot : Option Nat
  prom : Nat → PromState
  armed : Nat → Bool

/-- Events on the waiter machinery. -/
inductive WaitEv where
  | waitCall (id : Nat)
  | transcriptEvent (t : String)
  | timeoutFire (id : Nat)
  deriving DecidableEq

/-- One step.
`waitCall id` is a `waitForTranscript` call (lines 458-471): overwrite the
slot with the new waiter's callback and arm its timeout.
`transcriptEvent t` is the `completed` event (lines 413-417) invoking the
installed callback, which clears its own timeout, clears the slot and
resolves (lines 465-469); with no callback installed it is a no-op.
`timeoutFire id` is waiter `id`'s timeout (lines 460-463): it sets
`onTranscriptCallback = null` unconditionally and rejects its promise. -/
def waitStep (s : WaitState) : WaitEv → WaitState
  | .waitCall id =>
    { slot := some id, prom := updFn s.prom id .pending, armed := updFn s.armed id true }
  | .transcriptEvent t =>
    match s.slot with
    | none => s
    | some id =>
      { slot := none,
        prom := updFn s.prom id
          (if s.prom id = PromState.pending then .resolved t else s.prom id),
        armed := updFn s.armed id false }
  | .timeoutFire id =>
    if s.armed id then
      { slot := none,
        prom := updFn s.prom id
          (if s.prom id = PromState.pending then .rejectedTimeout else s.prom id),
        armed := updFn s.armed id false }
    else s

/-- Run a trace of waiter events. -/
def waitRun (s : WaitState) : List WaitEv → WaitState
  | [] => s
  | ev :: rest => waitRun (waitStep s ev) rest

theorem waitStep_replaced (A : Nat) (s : WaitState) (ev : WaitEv)
    (hslot : s.slot ≠ some A)
    (hprom : s.prom A = PromState.pending ∨ s.prom A = PromState.rejectedTimeout)
    (hev : ev ≠ WaitEv.waitCall A) :
    (waitStep s ev).slot ≠ some A ∧
    ((waitStep s ev).prom A = s.prom A ∨
      ((waitStep s ev).prom A = PromState.rejectedTimeout ∧ ev = WaitEv.timeoutFire A)) := by
  cases ev with
  | waitCall id =>
    have hid : id ≠ A := by
      intro hc
      exact hev (by rw [hc])
    constructor
    · simp only [waitStep, ne_eq, Option.some.injEq]
      omega
    · left
      simp only [waitStep, updFn]
      rw [if_neg (by omega)]
  | transcriptEvent t =>
    cases hs : s.slot with
    | none =>
      refine ⟨?_, Or.inl ?_⟩
      · simp [waitStep, hs]
      · simp only [waitStep, hs]
    | some id =>
      have hid : id ≠ A := by
        intro hc
        exact hslot (by rw [hs, hc])
      constructor
      · simp [waitStep, hs]
      · left
        simp only [waitStep, hs, updFn]
        rw [if_neg (by omega)]
  | timeoutFire id =>
    by_cases harm : s.armed id = true
    · by_cases hid : id = A
      · subst hid
        constructor
        · simp [waitStep, harm]
        · cases hprom with
          | inl hp =>
            right
            constructor
            · simp [waitStep, harm, updFn, hp]
            · rfl
          | inr hp =>
            left
            simp [waitStep, harm, updFn, hp]
      · constructor
        · simp [waitStep, harm]
        · left
          simp only [waitStep, harm, if_true, updFn]
          rw [if_neg (by omega)]
    · have harm' : s.armed id = false := by
        cases h : s.armed id
        · rfl
        · exact absurd h harm
      refine ⟨?_, Or.inl ?_⟩
      · simp only [waitStep, harm']
        simp only [Bool.false_eq_true, if_false]
        exact hslot
      · simp only [waitStep, harm']
        simp only [Bool.false_eq_true, if_false]

theorem waitRun_replaced_aux (A : Nat) :
    ∀ evs (s : WaitState), s.slot ≠ some A →
      (s.prom A = PromState.pending ∨ s.prom A = PromState.rejectedTimeout) →
      WaitEv.waitCall A ∉ evs →
      ((waitRun s evs).prom A = PromState.pending ∨
        (waitRun s evs).prom A = PromState.rejectedTimeout) ∧
      ((waitRun s evs).prom A = PromState.rejectedTimeout →
        s.prom A = PromState.rejectedTimeout ∨ WaitEv.timeoutFire A ∈ evs) := by
  intro evs
  induction evs with
  | nil =>
    intro s hslot hprom _
    exact ⟨hprom, fun h => Or.inl h⟩
  | cons ev rest ih =>
    intro s hslot hprom hno
    have hev : ev ≠ WaitEv.waitCall A := by
      intro hc
      exact hno (by rw [hc]; exact List.mem_cons_self _ _)
    have hno' : WaitEv.waitCall A ∉ rest := fun hc => hno (List.mem_cons_of_mem _ hc)
    obtain ⟨h1, h2⟩ := waitStep_replaced A s ev hslot hprom hev
    have hprom' : (waitStep s ev).prom A = PromState.pending ∨
        (waitStep s ev).prom A = PromState.rejectedTimeout := by
      cases h2 with
      | inl he => rw [he]; exact hprom
      | inr he => exact Or.inr he.1
    obtain ⟨g1, g2⟩ := ih (waitStep s ev) h1 hprom' hno'
    refine ⟨g1, ?_⟩
    intro hfin
    cases g2 hfin with
    | inr hmem => exact Or.inr (List.mem_cons_of_mem _ hmem)
    | inl hstep =>
      cases h2 with
      | inl he =>
        rw [he] at hstep
        exact Or.inl hstep
      | inr he => exact Or.inr (by rw [he.2]; exact List.mem_cons_self _ _)

/-- Claim C10: once a later `waitForTranscript` call has replaced waiter `A`
(the slot no longer holds `A` while `A` is still pending), then over any
further events not re-creating `A`, waiter `A` never resolves with a
transcript, and it settles (as a timeout rejection) only if its own timeout
fires. -/
theorem waitForTranscript_replaced (A : Nat) (evs : List WaitEv) (s : WaitState)
    (hslot : s.slot ≠ some A) (hpend : s.prom A = PromState.pending)
    (hno : WaitEv.waitCall A ∉ evs) :
    (waitRun s evs).prom A = PromState.pending ∨
    ((waitRun s evs).prom A = PromState.rejectedTimeout ∧ WaitEv.timeoutFire A ∈ evs) := by
  obtain ⟨h1, h2⟩ := waitRun_replaced_aux A evs s hslot (Or.inl hpend) hno
  cases h1 with
  | inl hp => exact Or.inl hp
  | inr hr =>
    refine Or.inr ⟨hr, ?_⟩
    cases h2 hr with
    | inl hc => rw [hpend] at hc; cases hc
    | inr hmem => exact hmem

/-- Initial waiter state: nothing installed. -/
def waitInit : WaitState :=
  { slot := none, prom := fun _ => PromState.pending, armed := fun _ => false }

/-- Witness for C10: waiter 0 is replaced by waiter 1; a transcript then
resolves waiter 1, and waiter 0's own timeout rejects it. -/
theorem waitForTranscript_replaced_witness :
    (waitRun (waitRun waitInit [WaitEv.waitCall 0, WaitEv.waitCall 1])
      [WaitEv.transcriptEvent "hi", WaitEv.timeoutFire 0]).prom 0
        = PromState.pending ∨
    ((waitRun (waitRun waitInit [WaitEv.waitCall 0, WaitEv.waitCall 1])
      [WaitEv.transcriptEvent "hi", WaitEv.timeoutFire 0]).prom 0
        = PromState.rejectedTimeout ∧
      WaitEv.timeoutFire 0 ∈ [WaitEv.transcriptEvent "hi", WaitEv.timeoutFire 0]) :=
  waitForTranscript_replaced 0
    [WaitEv.transcriptEvent "hi", WaitEv.timeoutFire 0]
    (waitRun waitInit [WaitEv.waitCall 0, WaitEv.waitCall 1])
    (by decide) (by decide) (by decide)

end CallMe
